import Mathlib

/-!
Verification of the NEC infrared decoding pipeline of the Mosiwi space
station kit (file python/Mosiwi_lib_examples/Mosiwi_nec_ir.py).

The PulseReader and necDecoder classes are embedded shallowly:
their mutable attributes become record fields, each Python method becomes
a pure function from the old state (plus arguments) to its result and the
new state.  Python float arithmetic in the 20 percent tolerance test and
in the tick conversion is modelled exactly over the rationals; all the
concrete values used below are far from any comparison boundary, so the
rational model and IEEE doubles agree on them.
-/

/-- Tolerance test of necDecoder.match: abs (val - expectedVal) < val * 0.20.
Named necMatch because match is a Lean keyword. -/
def necMatch (val expectedVal : ℚ) : Bool :=
  |val - expectedVal| < val * 0.20

/-- necDecoder.checkZero: both halves of the pair match 560 microseconds. -/
def checkZero (p1 p2 : ℚ) : Bool :=
  necMatch p1 560 && necMatch p2 560

/-- necDecoder.checkOne: first half matches 560, second matches 560 * 3. -/
def checkOne (p1 p2 : ℚ) : Bool :=
  necMatch p1 560 && necMatch p2 (560 * 3)

/-- Python int() applied to a rational: truncation toward zero. -/
def pyInt (x : ℚ) : ℤ :=
  if 0 ≤ x then ⌊x⌋ else ⌈x⌉

/-- Mutable attributes of a PulseReader object.  The field
rawCommandTimeBuffer mirrors the misspelled attribute that line 89 of the
source assigns to (the intended target was rawCommandTimeBuf): it is
written and never read, exactly as in the Python code. -/
structure PulseReader where
  rawPulsesBuf : List ℤ
  rawRepeatTimeBuf : List ℤ
  rawCommandTimeBuf : List ℤ
  rawCommandTimeBuffer : List ℤ
  newRepeatFlag : Bool
  newCommandFlag : Bool
  pulseTimeout : ℤ
  smFreq : ℚ
  deriving DecidableEq

/-- PulseReader.convertToMS, acting on a finished list of raw tick counts.
It first clears rawRepeatTimeBuf, computes factor = 2 * 1000000 / smFreq,
and then either fills the repeat buffer (length exactly 2) or appends the
converted values to the command buffer.  The command branch clears only
the misspelled dead attribute, so the command buffer is appended to, not
replaced. -/
def convertToMS (pr : PulseReader) (code : List ℤ) : PulseReader :=
  let pr1 := { pr with rawRepeatTimeBuf := [] }
  let factor : ℚ := 2 * 1000000 / pr.smFreq
  if code.length = 2 then
    { pr1 with rawRepeatTimeBuf := code.map (fun (i : ℤ) => pyInt ((i : ℚ) * factor)),
               newRepeatFlag := true }
  else
    { pr1 with rawCommandTimeBuffer := [],
               rawCommandTimeBuf :=
                 pr1.rawCommandTimeBuf ++ code.map (fun (i : ℤ) => pyInt ((i : ℚ) * factor)),
               newCommandFlag := true }

/-- PulseReader.getPulses for a single value taken from the RX FIFO:
the sentinel 0xffffffff finalizes the accumulated burst via convertToMS
and resets the accumulator, any other value is appended (as
pulseTimeout - pulse) to the accumulator. -/
def getPulses (pr : PulseReader) (pulse : ℕ) : PulseReader :=
  if pulse = 0xffffffff then
    { convertToMS pr pr.rawPulsesBuf with rawPulsesBuf := [] }
  else
    { pr with rawPulsesBuf := pr.rawPulsesBuf ++ [pr.pulseTimeout - (pulse : ℤ)] }

/-- Mutable attributes of a necDecoder object together with its embedded
PulseReader.  err is Option-valued because the attribute does not exist
until the first successful decode assigns it. -/
structure NecState where
  necData : ℕ
  commandRepeat : Bool
  err : Option ℕ
  pr : PulseReader
  deriving DecidableEq

/-- The data-pair loop of necDecoder.decodeCommand.  The Python loop runs
for i in range(2, len(rawPulses) - 1, 2) over pairs (rawPulses[i],
rawPulses[i+1]) and on a one-bit sets bit 31 - (i / 2 - 1) of necData.
Here the list argument is the suffix rawPulses.drop 2 and k = i / 2 - 1
counts pairs from 0, so the loop is structural recursion consuming two
elements per step; acc is the accumulating necData value. -/
def decodeLoopAux (k acc : ℕ) : List ℤ → Bool × ℕ
  | p1 :: p2 :: rest =>
    if p1 + p2 > 560 * 3 then
      if checkOne (p1 : ℚ) (p2 : ℚ) then
        decodeLoopAux (k + 1) (acc ||| (1 <<< (31 - k))) rest
      else (false, acc)
    else
      if checkZero (p1 : ℚ) (p2 : ℚ) then decodeLoopAux (k + 1) acc rest
      else (false, acc)
  | _ => (true, acc)

/-- necDecoder.decodeCommand.  For a burst of more than one value it
resets necData to 0 and lowers the command flag, rejects the start
sequence only when rawPulses[0] fails to match 9000 and rawPulses[1]
fails to match 4500, and otherwise runs the data-pair loop, whose
accumulated value lands in necData even when the loop fails. -/
def decodeCommand (st : NecState) (rawPulses : List ℤ) : Bool × NecState :=
  if 1 < rawPulses.length then
    let st1 := { st with necData := 0, pr := { st.pr with newCommandFlag := false } }
    if !necMatch (rawPulses.getD 0 0 : ℚ) 9000 &&
       !necMatch (rawPulses.getD 1 0 : ℚ) 4500 then
      (false, st1)
    else
      let r := decodeLoopAux 0 0 (rawPulses.drop 2)
      (r.1, { st1 with necData := r.2 })
  else (false, st)

/-- The repeat half of necDecoder.decode: executed whenever control
reaches the newRepeatFlag test.  It copies and clears the repeat buffer,
and on a nonempty copy lowers the command flag and validates the
(9000, 2250) repeat frame, setting necData to 0xffffffff when
commandRepeat is false. -/
def repeatPath (st : NecState) : Bool × NecState :=
  if st.pr.newRepeatFlag then
    let rawRepeat := st.pr.rawRepeatTimeBuf
    let st1 := { st with pr := { st.pr with rawRepeatTimeBuf := [] } }
    if rawRepeat.length ≠ 0 then
      let st2 := { st1 with pr := { st1.pr with newCommandFlag := false } }
      if necMatch (rawRepeat.getD 0 0 : ℚ) 9000 &&
         necMatch (rawRepeat.getD 1 0 : ℚ) 2250 then
        if !st2.commandRepeat then (true, { st2 with necData := 0xffffffff })
        else (true, st2)
      else (false, st2)
    else (false, st1)
  else (false, st)

/-- necDecoder.decode.  When the command flag is up it copies and clears
the command buffer and runs decodeCommand; on success it sets err to 0
and returns true, on failure control falls through to the repeat half
with the state decodeCommand left behind. -/
def decode (st : NecState) : Bool × NecState :=
  if st.pr.newCommandFlag then
    let rawPulses := st.pr.rawCommandTimeBuf
    let st1 := { st with pr := { st.pr with rawCommandTimeBuf := [] } }
    let r := decodeCommand st1 rawPulses
    if r.1 then (true, { r.2 with err := some 0 })
    else repeatPath r.2
  else repeatPath st

/-- The PulseReader attributes right after __init__ on the pin used by the
necDecoder constructor: empty buffers, lowered flags, the 2 to the 12 minus 1
timeout and the 256 kHz state machine frequency. -/
def initPulseReader : PulseReader :=
  { rawPulsesBuf := []
    rawRepeatTimeBuf := []
    rawCommandTimeBuf := []
    rawCommandTimeBuffer := []
    newRepeatFlag := false
    newCommandFlag := false
    pulseTimeout := 4095
    smFreq := 256000 }

/-- The necDecoder attributes right after construction with the given
commandRepeat policy. -/
def initState (commandRepeat : Bool) : NecState :=
  { necData := 0
    commandRepeat := commandRepeat
    err := none
    pr := initPulseReader }

/-- The states of the decoder the program can actually be in: the initial
state, then interleavings of the 4 kHz timer callback consuming one FIFO
value and of polls of decode. -/
inductive Reachable : NecState → Prop where
  | init (commandRepeat : Bool) : Reachable (initState commandRepeat)
  | pulse (s : NecState) (p : ℕ) (h : Reachable s) :
      Reachable { s with pr := getPulses s.pr p }
  | poll (s : NecState) (h : Reachable s) : Reachable (decode s).2

/-- A list of data pulses in which every pair passes one of the two bit
classifiers; this is the hypothesis under which the data-pair loop runs to
completion. -/
def pairsGood : List ℤ → Bool
  | p1 :: p2 :: rest =>
    (checkZero (p1 : ℚ) (p2 : ℚ) || checkOne (p1 : ℚ) (p2 : ℚ)) && pairsGood rest
  | _ => true

/-- The value the data-pair loop accumulates on an all-good pulse list:
pair number k (counting from 0 at list positions 2k and 2k+1) contributes
bit 31 - k exactly when it is classified as a one. -/
def loopBits (k : ℕ) : List ℤ → ℕ
  | p1 :: p2 :: rest =>
    (if checkOne (p1 : ℚ) (p2 : ℚ) then 1 <<< (31 - k) else 0) ||| loopBits (k + 1) rest
  | _ => 0

/-- A command burst with one long and fifteen short data pairs: the NEC
frame whose decoded value has bit 31 set and every other bit clear. -/
def validBurst : List ℤ :=
  [9000, 4500,
   560, 1680, 560, 560, 560, 560, 560, 560,
   560, 560, 560, 560, 560, 560, 560, 560,
   560, 560, 560, 560, 560, 560, 560, 560,
   560, 560, 560, 560, 560, 560, 560, 560]

/-- A decoder state holding a pending malformed command burst and a prior
nonzero command code; reachable by decoding a frame for code 5 and then
receiving two noise pulses followed by the idle marker. -/
def stC1 : NecState :=
  ⟨5, false, none,
   { initPulseReader with rawCommandTimeBuf := [1, 1], newCommandFlag := true }⟩

/-- A decoder state with a pending malformed command burst and prior
code 9, used to instantiate the amended start-failure property. -/
def stC1w : NecState :=
  ⟨9, false, none,
   { initPulseReader with rawCommandTimeBuf := [2, 2], newCommandFlag := true }⟩

/-- A decoder state in which both a (malformed) command burst and a valid
repeat burst are pending at the same time; reachable because a command
burst does not clear a later repeat burst. -/
def stC5 : NecState :=
  ⟨3, false, none,
   { initPulseReader with rawCommandTimeBuf := [1, 1], newCommandFlag := true,
                          rawRepeatTimeBuf := [9000, 2250], newRepeatFlag := true }⟩

/-- A decoder state in which a decodable command burst and a valid repeat
burst are pending at the same time. -/
def stC5w : NecState :=
  ⟨0, false, none,
   { initPulseReader with rawCommandTimeBuf := [9000, 4500], newCommandFlag := true,
                          rawRepeatTimeBuf := [9000, 2250], newRepeatFlag := true }⟩

/-- A commandRepeat=true decoder state with prior code 5, a pending
malformed command burst and a pending valid repeat burst. -/
def stC7 : NecState :=
  ⟨5, true, none,
   { initPulseReader with rawCommandTimeBuf := [1, 1], newCommandFlag := true,
                          rawRepeatTimeBuf := [9000, 2250], newRepeatFlag := true }⟩

/-- A commandRepeat=false decoder state with prior code 123 and only a
valid repeat burst pending. -/
def stC7w : NecState :=
  ⟨123, false, none,
   { initPulseReader with rawRepeatTimeBuf := [9000, 2250], newRepeatFlag := true }⟩

/-- A decoder state with prior code 7 and a pending one-value command
burst. -/
def stC8 : NecState :=
  ⟨7, false, none,
   { initPulseReader with rawCommandTimeBuf := [5], newCommandFlag := true }⟩

/-- A decoder state with prior code 7, a pending one-value command burst
and a pending valid repeat burst; reachable because a one-value burst is
routed to the command buffer by convertToMS (only length-2 bursts go to
the repeat buffer) and a later repeat burst leaves it pending. -/
def stC8x : NecState :=
  ⟨7, false, none,
   { initPulseReader with rawCommandTimeBuf := [5], newCommandFlag := true,
                          rawRepeatTimeBuf := [9000, 2250], newRepeatFlag := true }⟩

/-- A decoder state with a decodable command burst and a valid repeat
burst pending at once: the first decode call consumes only the command
burst, leaving the repeat burst for the second call. -/
def stC9 : NecState :=
  ⟨0, false, none,
   { initPulseReader with rawCommandTimeBuf := [9000, 4500], newCommandFlag := true,
                          rawRepeatTimeBuf := [9000, 2250], newRepeatFlag := true }⟩

/-- A decoder state holding the all-good 34-value burst of validBurst. -/
def stC4 : NecState :=
  ⟨0, false, none,
   { initPulseReader with rawCommandTimeBuf := validBurst, newCommandFlag := true }⟩

/-- Rational tolerance test at integer arguments, restated as an integer
comparison. -/
theorem necMatch_intCast (a b : ℤ) :
    necMatch (a : ℚ) (b : ℚ) = decide (5 * |a - b| < a) := by
  unfold necMatch
  rw [decide_eq_decide, ← Int.cast_sub, ← Int.cast_abs]
  have h2 : (0.20 : ℚ) = 1 / 5 := by norm_num
  rw [h2, mul_one_div, lt_div_iff₀ (by norm_num : (0:ℚ) < 5), mul_comm]
  exact_mod_cast Iff.rfl

theorem necMatch_560_bounds (p : ℚ) (h : necMatch p 560 = true) :
    1400 / 3 < p ∧ p < 700 := by
  simp only [necMatch, decide_eq_true_eq] at h
  rw [abs_lt] at h
  constructor <;> nlinarith [h.1, h.2]

theorem necMatch_1680_lower (p : ℚ) (h : necMatch p (560 * 3) = true) : 1400 < p := by
  simp only [necMatch, decide_eq_true_eq] at h
  rw [abs_lt] at h
  nlinarith [h.1, h.2]

/-- A pair that the classifier accepts as a one always lands in the
long-sum branch of the loop. -/
theorem checkOne_sum (p1 p2 : ℤ) (h : checkOne (p1 : ℚ) (p2 : ℚ) = true) :
    p1 + p2 > 560 * 3 := by
  simp only [checkOne, Bool.and_eq_true] at h
  have h1 := necMatch_560_bounds _ h.1
  have h2 := necMatch_1680_lower _ h.2
  have : (1680 : ℚ) < (p1 : ℚ) + (p2 : ℚ) := by linarith [h1.1]
  exact_mod_cast this

/-- A pair that the classifier accepts as a zero always lands in the
short-sum branch of the loop. -/
theorem checkZero_sum (p1 p2 : ℤ) (h : checkZero (p1 : ℚ) (p2 : ℚ) = true) :
    ¬(p1 + p2 > 560 * 3) := by
  simp only [checkZero, Bool.and_eq_true] at h
  have h1 := necMatch_560_bounds _ h.1
  have h2 := necMatch_560_bounds _ h.2
  have : (p1 : ℚ) + (p2 : ℚ) < 1680 := by linarith [h1.2, h2.2]
  intro hc
  have : (1680 : ℚ) < (p1 : ℚ) + (p2 : ℚ) := by exact_mod_cast hc
  linarith

/-- On an all-good pulse list the data-pair loop succeeds and returns the
accumulator joined with the loop bits. -/
theorem decodeLoopAux_good : ∀ (s : List ℤ) (k acc : ℕ), pairsGood s = true →
    decodeLoopAux k acc s = (true, acc ||| loopBits k s)
  | [] => by intro k acc _; simp [decodeLoopAux, loopBits]
  | [p] => by intro k acc _; simp [decodeLoopAux, loopBits]
  | p1 :: p2 :: rest => by
    intro k acc h
    simp only [pairsGood, Bool.and_eq_true, Bool.or_eq_true] at h
    obtain ⟨hgood, hrest⟩ := h
    by_cases hone : checkOne (p1 : ℚ) (p2 : ℚ) = true
    · have hsum : p1 + p2 > 560 * 3 := checkOne_sum p1 p2 hone
      simp only [decodeLoopAux, loopBits, if_pos hsum, if_pos hone,
        decodeLoopAux_good rest (k + 1) _ hrest, Nat.or_assoc]
    · have hzero : checkZero (p1 : ℚ) (p2 : ℚ) = true := by
        rcases hgood with h | h
        · exact h
        · exact absurd h hone
      have hsum : ¬(p1 + p2 > 560 * 3) := checkZero_sum p1 p2 hzero
      simp only [decodeLoopAux, loopBits, if_neg hsum, if_pos hzero, if_neg hone,
        decodeLoopAux_good rest (k + 1) _ hrest, Nat.zero_or]

theorem loopBits_short (k : ℕ) : ∀ s : List ℤ, s.length < 2 → loopBits k s = 0
  | [] => by intro _; simp [loopBits]
  | [p] => by intro _; simp [loopBits]
  | _ :: _ :: _ => by intro h; simp only [List.length_cons] at h; omega

/-- Bits above the window of the remaining pairs are never set. -/
theorem loopBits_testBit_high : ∀ (s : List ℤ) (k j : ℕ), 31 - k < j →
    (loopBits k s).testBit j = false
  | [] => by intro k j _; simp [loopBits]
  | [p] => by intro k j _; simp [loopBits]
  | p1 :: p2 :: rest => by
    intro k j h
    simp only [loopBits, Nat.testBit_or]
    have h1 : (if checkOne (p1 : ℚ) (p2 : ℚ) then 1 <<< (31 - k) else 0).testBit j
        = false := by
      split
      · rw [Nat.shiftLeft_eq, one_mul]
        exact Nat.testBit_two_pow_of_ne (by omega)
      · simp
    have h2 : (loopBits (k + 1) rest).testBit j = false :=
      loopBits_testBit_high rest (k + 1) j (by omega)
    simp [h1, h2]

/-- Bits below the window of the remaining pairs are never set. -/
theorem loopBits_testBit_low : ∀ (s : List ℤ) (k j : ℕ), j + k + s.length / 2 < 32 →
    (loopBits k s).testBit j = false
  | [] => by intro k j _; simp [loopBits]
  | [p] => by intro k j _; simp [loopBits]
  | p1 :: p2 :: rest => by
    intro k j h
    have hlen : (p1 :: p2 :: rest).length / 2 = rest.length / 2 + 1 := by
      simp only [List.length_cons]
      omega
    rw [hlen] at h
    simp only [loopBits, Nat.testBit_or]
    have h1 : (if checkOne (p1 : ℚ) (p2 : ℚ) then 1 <<< (31 - k) else 0).testBit j
        = false := by
      split
      · rw [Nat.shiftLeft_eq, one_mul]
        exact Nat.testBit_two_pow_of_ne (by omega)
      · simp
    have h2 : (loopBits (k + 1) rest).testBit j = false :=
      loopBits_testBit_low rest (k + 1) j (by omega)
    simp [h1, h2]

/-- Inside the window, bit 31 - (k + m) is set exactly when pair m of the
remaining pulse list is classified as a one. -/
theorem loopBits_testBit_at : ∀ (s : List ℤ) (k m : ℕ), m < s.length / 2 →
    k + s.length / 2 ≤ 32 →
    (loopBits k s).testBit (31 - (k + m))
      = checkOne (s.getD (2 * m) 0 : ℚ) (s.getD (2 * m + 1) 0 : ℚ)
  | [] => by intro k m h1 _; simp only [List.length_nil] at h1; omega
  | [p] => by intro k m h1 _; simp only [List.length_singleton] at h1; omega
  | p1 :: p2 :: rest => by
    intro k m h1 h2
    have hlen : (p1 :: p2 :: rest).length / 2 = rest.length / 2 + 1 := by
      simp only [List.length_cons]
      omega
    rw [hlen] at h1 h2
    simp only [loopBits, Nat.testBit_or]
    cases m with
    | zero =>
      simp only [Nat.add_zero]
      have h1' : (if checkOne (p1 : ℚ) (p2 : ℚ) then 1 <<< (31 - k) else 0).testBit
          (31 - k) = checkOne (p1 : ℚ) (p2 : ℚ) := by
        by_cases hc : checkOne (p1 : ℚ) (p2 : ℚ) = true
        · rw [if_pos hc, hc, Nat.shiftLeft_eq, one_mul]
          exact Nat.testBit_two_pow_self
        · have hcf : checkOne (p1 : ℚ) (p2 : ℚ) = false := Bool.eq_false_iff.mpr hc
          rw [if_neg hc, hcf]
          simp
      have h2' : (loopBits (k + 1) rest).testBit (31 - k) = false := by
        rcases Nat.lt_or_ge k 31 with hk | hk
        · exact loopBits_testBit_high rest (k + 1) _ (by omega)
        · rw [loopBits_short (k + 1) rest (by omega)]
          simp
      simp [h1', h2']
    | succ m' =>
      have h1' : (if checkOne (p1 : ℚ) (p2 : ℚ) then 1 <<< (31 - k) else 0).testBit
          (31 - (k + (m' + 1))) = false := by
        split
        · rw [Nat.shiftLeft_eq, one_mul]
          exact Nat.testBit_two_pow_of_ne (by omega)
        · simp
      have h2' := loopBits_testBit_at rest (k + 1) m' (by omega) (by omega)
      have harith : (k + 1) + m' = k + (m' + 1) := by omega
      rw [harith] at h2'
      have hidx : 2 * (m' + 1) = 2 * m' + 1 + 1 := by omega
      simp only [h1', Bool.false_or, hidx, List.getD_cons_succ]
      exact h2'

theorem getD_drop : ∀ (l : List ℤ) (n m : ℕ), (l.drop n).getD m 0 = l.getD (n + m) 0
  | _, 0, _ => by simp
  | [], _ + 1, _ => by simp
  | a :: l, n + 1, m => by
    rw [List.drop_succ_cons, getD_drop l n m, show n + 1 + m = (n + m) + 1 by omega,
       List.getD_cons_succ]

theorem pairsGood_nil : pairsGood ([] : List ℤ) = true := rfl

theorem pairsGood_560_560 (rest : List ℤ) :
    pairsGood ((560 : ℤ) :: (560 : ℤ) :: rest) = pairsGood rest := by
  have hz : checkZero (560 : ℚ) (560 : ℚ) = true := by
    norm_num [checkZero, necMatch, abs_of_nonneg, abs_of_nonpos]
  simp [pairsGood, hz]

theorem pairsGood_560_1680 (rest : List ℤ) :
    pairsGood ((560 : ℤ) :: (1680 : ℤ) :: rest) = pairsGood rest := by
  have ho : checkOne (560 : ℚ) (1680 : ℚ) = true := by
    norm_num [checkOne, necMatch, abs_of_nonneg, abs_of_nonpos]
  simp [pairsGood, ho]

/-- C6 (counterexample): the claim asserts that a pulse of 560 * 1.21
microseconds does not match 560, but under the tolerance scaled by the
observed value it does: the difference 117.6 is below 677.6 * 0.20 =
135.52. -/
theorem necMatch_560_121_accepted : necMatch (560 * 1.21) 560 = true := by
  norm_num [necMatch, abs_of_nonneg, abs_of_nonpos]

/-- C6 (amended): a pulse of 560 * 1.19 microseconds matches 560 and a
pulse of 560 * 1.21 microseconds also matches 560; because the 20 percent
tolerance is scaled by the observed value, observed values below
560 / 0.8 = 700 match, and for example 560 * 1.26 does not. -/
theorem necMatch_tolerance_boundaries :
    necMatch (560 * 1.19) 560 = true
    ∧ necMatch (560 * 1.21) 560 = true
    ∧ necMatch (560 * 1.26) 560 = false := by
  refine ⟨?_, ?_, ?_⟩ <;> norm_num [necMatch, abs_of_nonneg, abs_of_nonpos]

/-- C2 (code bug): finalizing a second command burst while one is still
unconsumed concatenates the two bursts in rawCommandTimeBuf (the clearing
assignment in convertToMS writes to the misspelled dead attribute
rawCommandTimeBuffer), while a second repeat burst does replace the first
one. -/
theorem convertToMS_command_burst_concatenates :
    (convertToMS (convertToMS initPulseReader [100, 100, 100])
        [100, 100, 100]).rawCommandTimeBuf.length = 6
    ∧ (convertToMS (convertToMS initPulseReader [70, 70])
        [70, 70]).rawRepeatTimeBuf.length = 2 := by
  constructor <;> norm_num [convertToMS, initPulseReader]

/-- C3: for a burst of more than one value the start-sequence step rejects
exactly when both start checks fail: when both mismatch, decodeCommand
returns false at the start step, and when at least one of the two checks
passes (in particular a first value failing 9000 with a second value
matching 4500, and also a first value matching 9000 with a second value
failing 4500) the decoder proceeds to the data-pair walk and its outcome
is the outcome of the loop. -/
theorem decodeCommand_start_reject_iff_both_mismatch (st : NecState) (raw : List ℤ)
    (h : 1 < raw.length) :
    ((necMatch (raw.getD 0 0 : ℚ) 9000 = false
        ∧ necMatch (raw.getD 1 0 : ℚ) 4500 = false) →
      decodeCommand st raw
        = (false, { st with necData := 0, pr := { st.pr with newCommandFlag := false } }))
    ∧ ((necMatch (raw.getD 0 0 : ℚ) 9000 = true
        ∨ necMatch (raw.getD 1 0 : ℚ) 4500 = true) →
      (decodeCommand st raw).1 = (decodeLoopAux 0 0 (raw.drop 2)).1
      ∧ (decodeCommand st raw).2.necData = (decodeLoopAux 0 0 (raw.drop 2)).2) := by
  have hlet : decodeCommand st raw =
      (if (!necMatch (raw.getD 0 0 : ℚ) 9000 && !necMatch (raw.getD 1 0 : ℚ) 4500) = true
        then (false, { st with necData := 0, pr := { st.pr with newCommandFlag := false } })
        else ((decodeLoopAux 0 0 (raw.drop 2)).1,
          { st with necData := (decodeLoopAux 0 0 (raw.drop 2)).2,
                    pr := { st.pr with newCommandFlag := false } })) := by
    simp only [decodeCommand, if_pos h]
  constructor
  · rintro ⟨h0, h1⟩
    rw [hlet, if_pos (by rw [h0, h1]; rfl)]
  · rintro (h0 | h1)
    · rw [hlet, if_neg (by rw [h0]; simp)]
      exact ⟨rfl, rfl⟩
    · rw [hlet, if_neg (by rw [h1]; simp)]
      exact ⟨rfl, rfl⟩

/-- C3 (witness): the burst [1, 4500] fails the 9000 check but passes the
4500 check, and the burst [9000, 77] passes the 9000 check but fails the
4500 check; neither is rejected at the start step, both reach the (empty)
data-pair walk and decode successfully. -/
theorem decodeCommand_start_reject_iff_both_mismatch_witness :
    (decodeCommand (initState false) [1, 4500]).1 = true
    ∧ (decodeCommand (initState false) [9000, 77]).1 = true := by
  have h1 := (decodeCommand_start_reject_iff_both_mismatch (initState false) [1, 4500]
    (by simp)).2
      (Or.inr (by norm_num [necMatch, abs_of_nonneg, abs_of_nonpos]))
  have h2 := (decodeCommand_start_reject_iff_both_mismatch (initState false) [9000, 77]
    (by simp)).2
      (Or.inl (by norm_num [necMatch, abs_of_nonneg, abs_of_nonpos]))
  constructor
  · rw [h1.1]
    norm_num [decodeLoopAux]
  · rw [h2.1]
    norm_num [decodeLoopAux]

/-- C4: for a pending 34-value burst with a valid start sequence and 16
classifiable data pairs, decode returns true and the resulting command
code has bit 31 - k equal to the one-classification of data pair k for
k = 0 .. 15, while bits 15 .. 0 and all bits above 31 are zero. -/
theorem decode_valid_command_burst (st : NecState) (raw : List ℤ)
    (hflag : st.pr.newCommandFlag = true)
    (hbuf : st.pr.rawCommandTimeBuf = raw)
    (hlen : raw.length = 34)
    (h0 : necMatch (raw.getD 0 0 : ℚ) 9000 = true)
    (h1 : necMatch (raw.getD 1 0 : ℚ) 4500 = true)
    (hpairs : pairsGood (raw.drop 2) = true) :
    (decode st).1 = true
    ∧ (∀ k, k < 16 →
        ((decode st).2.necData).testBit (31 - k)
          = checkOne (raw.getD (2 * k + 2) 0 : ℚ) (raw.getD (2 * k + 3) 0 : ℚ))
    ∧ (∀ j, j < 16 → ((decode st).2.necData).testBit j = false)
    ∧ (∀ j, 31 < j → ((decode st).2.necData).testBit j = false) := by
  obtain ⟨nd, cr, er, ⟨pb, rb, cb, cbb, rf, cf, pt, sf⟩⟩ := st
  simp only at hflag hbuf
  subst hflag
  subst hbuf
  have hloop := decodeLoopAux_good (cb.drop 2) 0 0 hpairs
  have hlt : 1 < cb.length := by omega
  have hcond : ¬((!necMatch (cb.getD 0 0 : ℚ) 9000
      && !necMatch (cb.getD 1 0 : ℚ) 4500) = true) := by
    rw [h0]
    simp
  have hdec : decode ⟨nd, cr, er, ⟨pb, rb, cb, cbb, rf, true, pt, sf⟩⟩
      = (true, ⟨0 ||| loopBits 0 (cb.drop 2), cr, some 0,
          ⟨pb, rb, [], cbb, rf, false, pt, sf⟩⟩) := by
    simp only [decode, decodeCommand, if_pos hlt, if_neg hcond, hloop, if_true]
  have hnd : (decode ⟨nd, cr, er, ⟨pb, rb, cb, cbb, rf, true, pt, sf⟩⟩).2.necData
      = loopBits 0 (cb.drop 2) := by
    rw [hdec]
    simp [Nat.zero_or]
  have hdrop : (cb.drop 2).length = 32 := by
    simp [hlen]
  refine ⟨by rw [hdec], ?_, ?_, ?_⟩
  · intro k hk
    rw [hnd]
    have hat := loopBits_testBit_at (cb.drop 2) 0 k (by omega) (by omega)
    rw [Nat.zero_add] at hat
    rw [hat, getD_drop, getD_drop]
    have e1 : 2 + 2 * k = 2 * k + 2 := by omega
    have e2 : 2 + (2 * k + 1) = 2 * k + 3 := by omega
    rw [e1, e2]
  · intro j hj
    rw [hnd]
    exact loopBits_testBit_low (cb.drop 2) 0 j (by omega)
  · intro j hj
    rw [hnd]
    exact loopBits_testBit_high (cb.drop 2) 0 j (by omega)

/-- C4 (witness): on the concrete burst of validBurst (start 9000/4500,
one long pair then fifteen short pairs) decode succeeds, bit 31 is set
and bits 30 and 15 are clear. -/
theorem decode_valid_command_burst_witness :
    (decode stC4).1 = true
    ∧ ((decode stC4).2.necData).testBit 31 = true
    ∧ ((decode stC4).2.necData).testBit 30 = false
    ∧ ((decode stC4).2.necData).testBit 15 = false := by
  have h := decode_valid_command_burst stC4 validBurst rfl rfl
    (by norm_num [validBurst])
    (by norm_num [validBurst, necMatch, abs_of_nonneg, abs_of_nonpos])
    (by norm_num [validBurst, necMatch, abs_of_nonneg, abs_of_nonpos])
    (by simp [validBurst, pairsGood_560_1680, pairsGood_560_560, pairsGood_nil])
  refine ⟨h.1, ?_, ?_, h.2.2.1 15 (by omega)⟩
  · have hb := h.2.1 0 (by omega)
    rw [show (31 : ℕ) - 0 = 31 from rfl] at hb
    rw [hb]
    norm_num [validBurst, checkOne, necMatch, abs_of_nonneg, abs_of_nonpos]
  · have hb := h.2.1 1 (by omega)
    rw [show (31 : ℕ) - 1 = 30 from rfl] at hb
    rw [hb]
    norm_num [validBurst, checkOne, necMatch, abs_of_nonneg, abs_of_nonpos]

/-- C8 (counterexample): the claim as frozen covers every state with a
pending command burst of length 0 or 1, but in the reachable state stC8x
(short command burst [5] plus a pending valid repeat burst) decode
returns true, not false, and overwrites necData with the repeat sentinel:
decodeCommand returns false on the short burst without clearing the
command flag, and the same call falls through to the repeat handler. -/
theorem decode_short_burst_with_repeat_returns_true :
    stC8x.pr.newCommandFlag = true
    ∧ stC8x.pr.rawCommandTimeBuf.length = 1
    ∧ stC8x.necData = 7
    ∧ (decode stC8x).1 = true
    ∧ (decode stC8x).2.necData = 0xffffffff := by
  refine ⟨rfl, rfl, rfl, ?_, ?_⟩ <;>
    norm_num [decode, decodeCommand, repeatPath, decodeLoopAux, stC8x, initPulseReader,
      necMatch, abs_of_nonneg, abs_of_nonpos]

/-- C8 (amended): a pending command burst with fewer than two entries
makes decode return false and leaves necData untouched provided no repeat
burst is pending; when a valid repeat burst is pending in the same call,
decode instead falls through to the repeat handler, returns true and
overwrites necData (see the counterexample). -/
theorem decode_short_burst_false_preserves_necData (st : NecState) (raw : List ℤ)
    (hflag : st.pr.newCommandFlag = true)
    (hbuf : st.pr.rawCommandTimeBuf = raw)
    (hshort : raw.length < 2)
    (hrep : st.pr.newRepeatFlag = false) :
    (decode st).1 = false ∧ (decode st).2.necData = st.necData := by
  obtain ⟨nd, cr, er, ⟨pb, rb, cb, cbb, rf, cf, pt, sf⟩⟩ := st
  simp only at hflag hbuf hrep
  subst hflag
  subst hbuf
  subst hrep
  have hnlt : ¬(1 < cb.length) := by omega
  simp only [decode, decodeCommand, repeatPath, if_neg hnlt, if_true,
    Bool.false_eq_true, if_false]
  constructor <;> trivial

/-- C8 (amended, witness): with prior code 7, the one-value burst [5]
pending and no repeat burst pending, decode returns false and the code
stays 7. -/
theorem decode_short_burst_false_preserves_necData_witness :
    (decode stC8).1 = false ∧ (decode stC8).2.necData = 7 :=
  decode_short_burst_false_preserves_necData stC8 [5] rfl rfl (by simp) rfl

/-- C1 (counterexample): on the pending malformed burst [1, 1] decode
returns false, yet necData does not keep its previous value 5: it is
reset to 0 by the burst-length branch of decodeCommand before the start
check fails. -/
theorem decode_failed_burst_clobbers_necData :
    (decode stC1).1 = false
    ∧ stC1.necData = 5
    ∧ (decode stC1).2.necData = 0 := by
  refine ⟨?_, rfl, ?_⟩ <;>
    norm_num [decode, decodeCommand, repeatPath, decodeLoopAux, stC1, initPulseReader,
      necMatch, abs_of_nonneg, abs_of_nonpos]

/-- C1 (amended): on a failing command burst (with no repeat burst
pending) decode returns false, but necData is preserved only for bursts
shorter than two values; a burst of two or more values that fails the
start-sequence check leaves necData equal to 0, not to its prior
value. -/
theorem decode_start_failure_false_necData_zero (st : NecState) (raw : List ℤ)
    (hflag : st.pr.newCommandFlag = true)
    (hbuf : st.pr.rawCommandTimeBuf = raw)
    (hrep : st.pr.newRepeatFlag = false)
    (hlen : 1 < raw.length)
    (h0 : necMatch (raw.getD 0 0 : ℚ) 9000 = false)
    (h1 : necMatch (raw.getD 1 0 : ℚ) 4500 = false) :
    (decode st).1 = false ∧ (decode st).2.necData = 0 := by
  obtain ⟨nd, cr, er, ⟨pb, rb, cb, cbb, rf, cf, pt, sf⟩⟩ := st
  simp only at hflag hbuf hrep
  subst hflag
  subst hbuf
  subst hrep
  have hcond : (!necMatch (cb.getD 0 0 : ℚ) 9000
      && !necMatch (cb.getD 1 0 : ℚ) 4500) = true := by
    rw [h0, h1]
    rfl
  simp only [decode, decodeCommand, repeatPath, if_pos hlen, if_pos hcond, if_true,
    Bool.false_eq_true, if_false]
  constructor <;> trivial

/-- C1 (amended, witness): with prior code 9 and the pending malformed
burst [2, 2], decode returns false and necData becomes 0. -/
theorem decode_start_failure_false_necData_zero_witness :
    (decode stC1w).1 = false ∧ (decode stC1w).2.necData = 0 :=
  decode_start_failure_false_necData_zero stC1w [2, 2] rfl rfl rfl (by simp)
    (by norm_num [necMatch, abs_of_nonneg, abs_of_nonpos])
    (by norm_num [necMatch, abs_of_nonneg, abs_of_nonpos])

theorem decodeCommand_preserves_repeat (st : NecState) (raw : List ℤ) :
    (decodeCommand st raw).2.pr.rawRepeatTimeBuf = st.pr.rawRepeatTimeBuf
    ∧ (decodeCommand st raw).2.pr.newRepeatFlag = st.pr.newRepeatFlag := by
  by_cases hl : 1 < raw.length
  · by_cases hc : (!necMatch (raw.getD 0 0 : ℚ) 9000
        && !necMatch (raw.getD 1 0 : ℚ) 4500) = true
    · simp only [decodeCommand, if_pos hl, if_pos hc]
      constructor <;> trivial
    · simp only [decodeCommand, if_pos hl, if_neg hc]
      constructor <;> trivial
  · simp only [decodeCommand, if_neg hl]
    constructor <;> trivial

/-- C5 (counterexample): in a state where a malformed command burst and a
valid repeat burst are both pending, the very call that finds the command
burst also consumes and acts on the repeat burst: decode returns true,
sets the repeat sentinel and empties the repeat buffer. -/
theorem decode_failed_command_processes_repeat_same_call :
    stC5.pr.newCommandFlag = true
    ∧ stC5.pr.newRepeatFlag = true
    ∧ (decode stC5).1 = true
    ∧ (decode stC5).2.necData = 0xffffffff
    ∧ (decode stC5).2.pr.rawRepeatTimeBuf = [] := by
  refine ⟨rfl, rfl, ?_, ?_, ?_⟩ <;>
    norm_num [decode, decodeCommand, repeatPath, decodeLoopAux, stC5, initPulseReader,
      necMatch, abs_of_nonneg, abs_of_nonpos]

/-- C5 (amended): the command-ready flag is checked first, and a call
whose pending command burst decodes successfully returns true without
touching the repeat buffer or the repeat flag; but when the command burst
fails to decode, the same call falls through to the repeat handler. -/
theorem decode_command_success_skips_repeat (st : NecState)
    (hflag : st.pr.newCommandFlag = true)
    (hok : (decodeCommand { st with pr := { st.pr with rawCommandTimeBuf := [] } }
        st.pr.rawCommandTimeBuf).1 = true) :
    (decode st).1 = true
    ∧ (decode st).2.pr.rawRepeatTimeBuf = st.pr.rawRepeatTimeBuf
    ∧ (decode st).2.pr.newRepeatFlag = st.pr.newRepeatFlag := by
  obtain ⟨nd, cr, er, ⟨pb, rb, cb, cbb, rf, cf, pt, sf⟩⟩ := st
  simp only at hflag hok
  subst hflag
  have hp := decodeCommand_preserves_repeat
    ⟨nd, cr, er, ⟨pb, rb, [], cbb, rf, true, pt, sf⟩⟩ cb
  simp only [decode, if_true, if_pos hok]
  exact ⟨trivial, hp.1, hp.2⟩

/-- C5 (amended, witness): with the decodable burst [9000, 4500] and a
repeat burst both pending, decode returns true and leaves the repeat
burst untouched. -/
theorem decode_command_success_skips_repeat_witness :
    (decode stC5w).1 = true
    ∧ (decode stC5w).2.pr.rawRepeatTimeBuf = [9000, 2250]
    ∧ (decode stC5w).2.pr.newRepeatFlag = true := by
  have h := decode_command_success_skips_repeat stC5w rfl
    (by norm_num [decodeCommand, decodeLoopAux, stC5w, initPulseReader,
      necMatch, abs_of_nonneg, abs_of_nonpos])
  refine ⟨h.1, ?_, ?_⟩
  · rw [h.2.1]
    rfl
  · rw [h.2.2]
    rfl

/-- C7 (counterexample): with commandRepeat true, prior code 5, a pending
malformed command burst and a pending valid repeat burst, decode returns
true but necData does not keep its prior value: the failed command decode
reset it to 0 before the repeat was handled. -/
theorem decode_repeat_after_failed_command_loses_prior_code :
    stC7.commandRepeat = true
    ∧ stC7.necData = 5
    ∧ (decode stC7).1 = true
    ∧ (decode stC7).2.necData = 0 := by
  refine ⟨rfl, rfl, ?_, ?_⟩ <;>
    norm_num [decode, decodeCommand, repeatPath, decodeLoopAux, stC7, initPulseReader,
      necMatch, abs_of_nonneg, abs_of_nonpos]

/-- C7 (amended): for a pending repeat burst whose two values match 9000
and 2250, when no command burst is pending, decode returns true and
necData becomes 0xffffffff when commandRepeat is false, and keeps its
prior value when commandRepeat is true.  When a failing command burst of
two or more values is pending in the same call, the prior value is not
kept (see the counterexample). -/
theorem decode_repeat_burst_policy (st : NecState) (r0 r1 : ℤ)
    (hcf : st.pr.newCommandFlag = false)
    (hrf : st.pr.newRepeatFlag = true)
    (hbuf : st.pr.rawRepeatTimeBuf = [r0, r1])
    (h0 : necMatch (r0 : ℚ) 9000 = true)
    (h1 : necMatch (r1 : ℚ) 2250 = true) :
    (decode st).1 = true
    ∧ (decode st).2.necData = (if st.commandRepeat then st.necData else 0xffffffff) := by
  obtain ⟨nd, cr, er, ⟨pb, rb, cb, cbb, rf, cf, pt, sf⟩⟩ := st
  simp only at hcf hrf hbuf
  subst hcf
  subst hrf
  subst hbuf
  have hlen : ¬(([r0, r1] : List ℤ).length = 0) := by simp
  have hcond : (necMatch (([r0, r1] : List ℤ).getD 0 0 : ℚ) 9000
      && necMatch (([r0, r1] : List ℤ).getD 1 0 : ℚ) 2250) = true := by
    simp only [List.getD_cons_zero, List.getD_cons_succ]
    rw [h0, h1]
    rfl
  cases cr
  · simp only [decode, repeatPath, Bool.false_eq_true, if_false, if_neg (by simp : ¬(false = true)),
      if_pos hlen, if_pos hcond, Bool.not_false, if_true]
    constructor <;> trivial
  · simp only [decode, repeatPath, Bool.false_eq_true, if_false, if_neg (by simp : ¬(false = true)),
      if_pos hlen, if_pos hcond, Bool.not_true, if_true]
    constructor <;> trivial

/-- C7 (amended, witness): a commandRepeat=false decoder with only the
repeat burst [9000, 2250] pending returns true and publishes the repeat
sentinel. -/
theorem decode_repeat_burst_policy_witness :
    (decode stC7w).1 = true ∧ (decode stC7w).2.necData = 0xffffffff := by
  have h := decode_repeat_burst_policy stC7w 9000 2250 rfl rfl rfl
    (by norm_num [necMatch, abs_of_nonneg, abs_of_nonpos])
    (by norm_num [necMatch, abs_of_nonneg, abs_of_nonpos])
  refine ⟨h.1, ?_⟩
  rw [h.2]
  rfl

theorem repeatPath_preserves_cbuf (st : NecState) :
    (repeatPath st).2.pr.rawCommandTimeBuf = st.pr.rawCommandTimeBuf := by
  simp only [repeatPath]
  (repeat' split) <;> rfl

theorem repeatPath_preserves_rflag (st : NecState) :
    (repeatPath st).2.pr.newRepeatFlag = st.pr.newRepeatFlag := by
  simp only [repeatPath]
  (repeat' split) <;> rfl

theorem repeatPath_cflag (st : NecState) :
    (repeatPath st).2.pr.newCommandFlag = st.pr.newCommandFlag
    ∨ (repeatPath st).2.pr.newCommandFlag = false := by
  simp only [repeatPath]
  (repeat' split) <;> simp

theorem repeatPath_clears (st : NecState) (hrf : st.pr.newRepeatFlag = true) :
    (repeatPath st).2.pr.rawRepeatTimeBuf = [] := by
  simp only [repeatPath, hrf, if_true]
  (repeat' split) <;> rfl

theorem decodeCommand_preserves_cbuf (st : NecState) (raw : List ℤ) :
    (decodeCommand st raw).2.pr.rawCommandTimeBuf = st.pr.rawCommandTimeBuf := by
  simp only [decodeCommand]
  (repeat' split) <;> rfl

/-- After any decode call whose result still has the command flag up, the
command buffer is empty: the command branch runs exactly when the flag was
up and always clears the buffer, and nothing refills it. -/
theorem decode_commandFlag_buf (st : NecState) :
    (decode st).2.pr.newCommandFlag = true → (decode st).2.pr.rawCommandTimeBuf = [] := by
  by_cases hcf : st.pr.newCommandFlag = true
  · intro _
    simp only [decode, hcf, if_true]
    split
    · exact decodeCommand_preserves_cbuf _ _
    · rw [repeatPath_preserves_cbuf, decodeCommand_preserves_cbuf]
  · intro hct
    exfalso
    have hd : decode st = repeatPath st := by
      simp only [decode, if_neg hcf]
    rw [hd] at hct
    rcases repeatPath_cflag st with h | h
    · rw [h] at hct
      exact hcf hct
    · rw [h] at hct
      exact Bool.false_ne_true hct

/-- After a decode call that returned false, a result state whose repeat
flag is up has an empty repeat buffer: the repeat branch ran (a false
result rules out the early command-success return) and cleared it. -/
theorem decode_repeatFlag_buf (st : NecState) (h : (decode st).1 = false) :
    (decode st).2.pr.newRepeatFlag = true → (decode st).2.pr.rawRepeatTimeBuf = [] := by
  intro hrf2
  by_cases hcf : st.pr.newCommandFlag = true
  · simp only [decode, hcf, if_true] at h hrf2 ⊢
    split at h
    · simp at h
    · next hr1 =>
      rw [if_neg hr1] at hrf2 ⊢
      apply repeatPath_clears
      rw [(decodeCommand_preserves_repeat _ _).2]
      rw [repeatPath_preserves_rflag, (decodeCommand_preserves_repeat _ _).2] at hrf2
      exact hrf2
  · simp only [decode, if_neg hcf] at h hrf2 ⊢
    apply repeatPath_clears
    rw [repeatPath_preserves_rflag] at hrf2
    exact hrf2

/-- A decode call on a state in which every raised flag has an empty
buffer returns false and leaves the state exactly as it was. -/
theorem decode_idle (s : NecState)
    (hc : s.pr.newCommandFlag = true → s.pr.rawCommandTimeBuf = [])
    (hr : s.pr.newRepeatFlag = true → s.pr.rawRepeatTimeBuf = []) :
    decode s = (false, s) := by
  obtain ⟨nd, cr, er, ⟨pb, rb, cb, cbb, rf, cf, pt, sf⟩⟩ := s
  simp only at hc hr
  cases cf
  · cases rf
    · simp [decode, repeatPath]
    · have hrb : rb = [] := hr rfl
      subst hrb
      simp [decode, repeatPath]
  · have hcb : cb = [] := hc rfl
    subst hcb
    cases rf
    · simp [decode, decodeCommand, repeatPath]
    · have hrb : rb = [] := hr rfl
      subst hrb
      simp [decode, decodeCommand, repeatPath]

/-- C9 (amended): once a decode call returns false, the decoder is at a
fixed point: with no new producer activity every further call returns
false and leaves the whole state (necData included) unchanged.  A call
that returns true, however, can leave a repeat burst pending (see the
counterexample), so the unqualified claim fails for the call after a
successful one. -/
theorem decode_false_fixpoint (st : NecState) (h : (decode st).1 = false) :
    decode ((decode st).2) = (false, (decode st).2) :=
  decode_idle ((decode st).2) (decode_commandFlag_buf st) (decode_repeatFlag_buf st h)

/-- C9 (amended, witness): from the freshly constructed decoder state a
decode call returns false, and the next call is a no-op returning
false. -/
theorem decode_false_fixpoint_witness :
    decode ((decode (initState false)).2) = (false, (decode (initState false)).2) :=
  decode_false_fixpoint (initState false)
    (by norm_num [decode, repeatPath, initState, initPulseReader])

/-- C9 (counterexample): in the reachable state stC9 (a decodable command
burst and a valid repeat burst pending at once), the first decode call
returns true and leaves the repeat burst unconsumed, and the second call,
with no new ready flags raised in between, returns true again and changes
necData: calls after the first are not always false. -/
theorem decode_second_call_consumes_leftover_repeat :
    (decode stC9).1 = true
    ∧ (decode (decode stC9).2).1 = true
    ∧ (decode (decode stC9).2).2.necData ≠ (decode stC9).2.necData := by
  refine ⟨?_, ?_, ?_⟩ <;>
    norm_num [decode, decodeCommand, repeatPath, decodeLoopAux, stC9, initPulseReader,
      necMatch, abs_of_nonneg, abs_of_nonpos]

theorem convertToMS_repeatBuf (pr : PulseReader) (code : List ℤ) :
    (convertToMS pr code).rawRepeatTimeBuf = []
    ∨ (convertToMS pr code).rawRepeatTimeBuf.length = 2 := by
  by_cases h : code.length = 2
  · right
    simp only [convertToMS, if_pos h, List.length_map]
    exact h
  · left
    simp only [convertToMS, if_neg h]

theorem getPulses_repeatBuf (pr : PulseReader) (p : ℕ) :
    (getPulses pr p).rawRepeatTimeBuf = pr.rawRepeatTimeBuf
    ∨ (getPulses pr p).rawRepeatTimeBuf = []
    ∨ (getPulses pr p).rawRepeatTimeBuf.length = 2 := by
  by_cases h : p = 0xffffffff
  · simp only [getPulses, if_pos h]
    rcases convertToMS_repeatBuf pr pr.rawPulsesBuf with h2 | h2
    · right
      left
      exact h2
    · right
      right
      exact h2
  · simp only [getPulses, if_neg h]
    left
    trivial

theorem repeatPath_repeatBuf (st : NecState) :
    (repeatPath st).2.pr.rawRepeatTimeBuf = []
    ∨ (repeatPath st).2.pr.rawRepeatTimeBuf = st.pr.rawRepeatTimeBuf := by
  simp only [repeatPath]
  (repeat' split) <;> simp

theorem decode_repeatBuf (st : NecState) :
    (decode st).2.pr.rawRepeatTimeBuf = []
    ∨ (decode st).2.pr.rawRepeatTimeBuf = st.pr.rawRepeatTimeBuf := by
  obtain ⟨nd, cr, er, ⟨pb, rb, cb, cbb, rf, cf, pt, sf⟩⟩ := st
  cases cf
  · simp only [decode, Bool.false_eq_true, if_false]
    exact repeatPath_repeatBuf _
  · simp only [decode, if_true]
    split
    · right
      exact (decodeCommand_preserves_repeat _ _).1
    · rcases repeatPath_repeatBuf
        ((decodeCommand ⟨nd, cr, er, ⟨pb, rb, [], cbb, rf, true, pt, sf⟩⟩ cb).2) with h1 | h1
      · left
        exact h1
      · right
        exact h1.trans (decodeCommand_preserves_repeat _ _).1

/-- C10: in every reachable state the pending repeat buffer has length
exactly 0 or exactly 2; hence whenever the nonemptiness guard in the
repeat half of decode passes, both accesses rawRepeat[0] and rawRepeat[1]
are in bounds and the out-of-range case cannot occur. -/
theorem reachable_repeat_buffer_length (s : NecState) (h : Reachable s) :
    (s.pr.rawRepeatTimeBuf.length = 0 ∨ s.pr.rawRepeatTimeBuf.length = 2)
    ∧ (s.pr.rawRepeatTimeBuf ≠ [] → 1 < s.pr.rawRepeatTimeBuf.length) := by
  have hmain : s.pr.rawRepeatTimeBuf.length = 0 ∨ s.pr.rawRepeatTimeBuf.length = 2 := by
    induction h with
    | init cr =>
      left
      rfl
    | pulse s p hs ih =>
      show (getPulses s.pr p).rawRepeatTimeBuf.length = 0
        ∨ (getPulses s.pr p).rawRepeatTimeBuf.length = 2
      rcases getPulses_repeatBuf s.pr p with h1 | h1 | h1
      · rw [h1]
        exact ih
      · left
        rw [h1]
        rfl
      · right
        exact h1
    | poll s hs ih =>
      rcases decode_repeatBuf s with h1 | h1
      · left
        rw [h1]
        rfl
      · rw [h1]
        exact ih
  refine ⟨hmain, fun hne => ?_⟩
  rcases hmain with h0 | h2
  · exact absurd (List.length_eq_zero.mp h0) hne
  · omega

/-- C10 (witness): the freshly constructed decoder state is reachable and
its repeat buffer has length 0. -/
theorem reachable_repeat_buffer_length_witness :
    (initState false).pr.rawRepeatTimeBuf.length = 0 := by
  rcases reachable_repeat_buffer_length (initState false) (Reachable.init false) with ⟨h, _⟩
  rcases h with h | h
  · exact h
  · exact absurd h (by simp [initState, initPulseReader])
